import Mathlib

/-!
# Verification of `cvi42py` contour extraction

Shallow embedding of `src/cvi42py.py` (the cvi42 XML contour extractor).

Modelling choices:
* The minidom document tree is the inductive `XNode`: element nodes carry a
  tag name, an attribute list and an ordered child list; all non-element
  nodes (text, etc.) are `XNode.text` carrying their data payload.
* Numeric text payloads are modelled directly as rationals `ℚ`; Python's
  `float(...)` / `int(...)` conversions of a text payload are the identity
  on this representation (string-to-number parsing is abstracted away, and
  binary floating point is modelled by exact rational arithmetic).
* Python `dict`s are association lists with a last-write-wins update that
  keeps the original insertion position (`dictInsert`), exactly like
  `dict.__setitem__`.
* Exceptions (`IndexError` from `getElementsByTagName(...)[0]`,
  `AttributeError` from `.firstChild.data` on a childless or non-text
  node) are modelled by `Except Unit`: any such failure aborts the whole
  parse, since the source has no local handlers.
* `parse_file` returns the catalog in `Except`; the pickle write happens
  only on the `.ok` path, so `.error` means no output artifact is written.
* Scaling uses exact division in `ℚ`; the degenerate scale factor `0`
  (where NumPy would produce IEEE infinities with a warning) is outside
  the rational model, and no claim concerns it.
-/

inductive XNode : Type where
  | elem (tag : String) (attrs : List (String × String)) (children : List XNode)
  | text (data : ℚ)

namespace Cvi42

open XNode

/-- Ordered list of direct children (element and non-element alike),
as exposed by minidom `childNodes` / the `firstChild`-`nextSibling` walk. -/
def childrenOf : XNode → List XNode
  | .elem _ _ cs => cs
  | .text _ => []

/-- Whether `node.nodeType == node.ELEMENT_NODE`. -/
def isElem : XNode → Bool
  | .elem _ _ _ => true
  | .text _ => false

/-- Source `keep_element_nodes`: keep only element nodes from a node list. -/
def keep_element_nodes (nodes : List XNode) : List XNode :=
  nodes.filter isElem

/-- minidom `getAttribute`: the attribute's value, or `""` when the
attribute is absent (the code only calls this on element nodes). -/
def getAttribute (a : String) : XNode → String
  | .elem _ attrs _ => ((attrs.find? (fun p => p.1 == a)).map Prod.snd).getD ""
  | .text _ => ""

/-- Whether the node carries the given attribute at all. -/
def hasAttribute (a : String) : XNode → Bool
  | .elem _ attrs _ => attrs.any (fun p => p.1 == a)
  | .text _ => false

/-- minidom `firstChild` (`None` when there are no children). -/
def firstChild (n : XNode) : Option XNode :=
  (childrenOf n).head?

/-- The `.data` payload of a node: only text-like nodes have one; reading
`.data` off an element raises in Python, so it is `none` here. -/
def nodeData : XNode → Option ℚ
  | .text d => some d
  | .elem _ _ _ => none

/-- The value of `node.firstChild.data`, `none` when `firstChild` is `None` or is not a
text node (both raise `AttributeError` in the source). -/
def firstChildData (n : XNode) : Option ℚ :=
  (firstChild n).bind nodeData

mutual

/-- All descendant-or-self elements with the given tag, in document
(preorder) order. -/
def elementsByTagIncl (tag : String) : XNode → List XNode
  | .text _ => []
  | .elem t a cs =>
      (if t == tag then [XNode.elem t a cs] else []) ++ elementsByTagList tag cs

/-- The function `elementsByTagIncl` mapped over a sibling list, concatenated in order. -/
def elementsByTagList (tag : String) : List XNode → List XNode
  | [] => []
  | c :: rest => elementsByTagIncl tag c ++ elementsByTagList tag rest

end

/-- minidom `getElementsByTagName`: all *descendant* elements (excluding
the node itself) with the given tag, in document order. -/
def getElementsByTagName (tag : String) (n : XNode) : List XNode :=
  elementsByTagList tag (childrenOf n)

/-! ## The data model populated by the extractor -/

/-- A contour: ordered point sequence (the rows of the NumPy array). -/
abbrev Contour := List (ℚ × ℚ)

/-- A `Dict[str, np.ndarray]`: contour name → points. -/
abbrev ContourSet := List (String × Contour)

/-- The `uid_contours` accumulator: image UID → `ContourSet`. -/
abbrev ContourCatalog := List (String × ContourSet)

/-- Python `d[k] = v`: overwrite the existing entry for `k` in place
(keeping its position), else append at the end. -/
def dictInsert {α : Type} (k : String) (v : α) :
    List (String × α) → List (String × α)
  | [] => [(k, v)]
  | (k', v') :: rest =>
      if k' == k then (k, v) :: rest else (k', v') :: dictInsert k v rest

/-- Python `d.get(k)`. -/
def dictGet {α : Type} (k : String) : List (String × α) → Option α
  | [] => none
  | (k', v) :: rest => if k' == k then some v else dictGet k rest

/-! ## Contour extraction (`parse_contours`) -/

/-- One point record `child3`:
`x = float(child3.getElementsByTagName("Point:x")[0].firstChild.data)` and
likewise for `"Point:y"`; a missing descendant (`IndexError`) or a missing
text payload (`AttributeError`) aborts the parse. -/
def parsePoint (r : XNode) : Except Unit (ℚ × ℚ) :=
  match ((getElementsByTagName "Point:x" r).head?).bind firstChildData with
  | none => .error ()
  | some x =>
    match ((getElementsByTagName "Point:y" r).head?).bind firstChildData with
    | none => .error ()
    | some y => .ok (x, y)

/-- The `for child3 in keep_element_nodes(child2.childNodes)` loop inside a
`"Points"`-keyed child: parse each point record in document order, failing
at the first malformed record. -/
def parsePoints : List XNode → Except Unit Contour
  | [] => .ok []
  | r :: rest =>
    match parsePoint r with
    | .error e => .error e
    | .ok p => (parsePoints rest).map (fun ps => p :: ps)

/-- The inner `for child2 in keep_element_nodes(child.childNodes)` loop of
`parse_contours`: a single in-order scan accumulating raw points from every
`"Points"`-keyed child and overwriting the scale factor at every
`"SubpixelResolution"`-keyed child. -/
def scanContourChildren : List XNode → Contour → ℚ → Except Unit (Contour × ℚ)
  | [], pts, sub => .ok (pts, sub)
  | c2 :: rest, pts, sub =>
    match (if getAttribute "Hash:key" c2 == "Points" then
            (parsePoints (keep_element_nodes (childrenOf c2))).map
              (fun ps => pts ++ ps)
          else Except.ok pts) with
    | .error e => .error e
    | .ok pts' =>
      match (if getAttribute "Hash:key" c2 == "SubpixelResolution" then
              match firstChildData c2 with
              | none => Except.error ()
              | some d => Except.ok d
            else Except.ok sub) with
      | .error e => .error e
      | .ok sub' => scanContourChildren rest pts' sub'

/-- One iteration of the outer loop of `parse_contours` (one named
contour): scan the children, then `points = np.array(points) / sub`. -/
def parseContourChild (child : XNode) : Except Unit Contour :=
  match scanContourChildren (keep_element_nodes (childrenOf child)) [] 1 with
  | .error e => .error e
  | .ok (pts, sub) => .ok (pts.map (fun p => (p.1 / sub, p.2 / sub)))

/-- The outer loop of `parse_contours` over the element children of the
`Contours` node, threading the accumulating dictionary. -/
def parseContoursList : List XNode → ContourSet → Except Unit ContourSet
  | [], acc => .ok acc
  | child :: rest, acc =>
    match parseContourChild child with
    | .error e => .error e
    | .ok pts =>
        parseContoursList rest (dictInsert (getAttribute "Hash:key" child) pts acc)

/-- Source `parse_contours`: name → scaled point sequence, for each element child
of a `Contours` node. -/
def parse_contours (node : XNode) : Except Unit ContourSet :=
  parseContoursList (keep_element_nodes (childrenOf node)) []

/-! ## Traversal (`traverse_node`) -/

/-- The `for child3 in keep_element_nodes(child2.childNodes)` loop: for
every `"Contours"`-keyed child of one image node, parse it and insert the
result under `uid` when the returned dictionary is non-empty (Python dict
truthiness). -/
def processImageChild (uid : String) :
    List XNode → ContourCatalog → Except Unit ContourCatalog
  | [], cat => .ok cat
  | c3 :: rest, cat =>
    if getAttribute "Hash:key" c3 == "Contours" then
      match parse_contours c3 with
      | .error e => .error e
      | .ok cs =>
          processImageChild uid rest (if cs.isEmpty then cat else dictInsert uid cs cat)
    else processImageChild uid rest cat

/-- The `for child2 in keep_element_nodes(child.childNodes)` loop of
`traverse_node`: each element child of an `ImageStates` node is one image,
its `Hash:key` attribute the image UID. -/
def processImages : List XNode → ContourCatalog → Except Unit ContourCatalog
  | [], cat => .ok cat
  | c2 :: rest, cat =>
    match processImageChild (getAttribute "Hash:key" c2)
        (keep_element_nodes (childrenOf c2)) cat with
    | .error e => .error e
    | .ok cat' => processImages rest cat'

mutual

/-- Source `traverse_node`: walk `node.firstChild` / `nextSibling`; at every
element child keyed `"ImageStates"` process its images, then recurse into
the child unconditionally. -/
def traverse_node : XNode → ContourCatalog → Except Unit ContourCatalog
  | .text _, cat => .ok cat
  | .elem _ _ cs, cat => traverseChildren cs cat

/-- The sibling loop of `traverse_node`. -/
def traverseChildren : List XNode → ContourCatalog → Except Unit ContourCatalog
  | [], cat => .ok cat
  | c :: rest, cat =>
    match (if isElem c && (getAttribute "Hash:key" c == "ImageStates") then
            processImages (keep_element_nodes (childrenOf c)) cat
          else .ok cat) with
    | .error e => .error e
    | .ok cat1 =>
      match traverse_node c cat1 with
      | .error e => .error e
      | .ok cat2 => traverseChildren rest cat2

end

/-- Source `parse_file`: parse the document, traverse from the document node with
an empty accumulator, and (only on success) write the catalog out.  The
returned value is the catalog handed to `pickle.dump`; `.error` means the
parse aborted and no output artifact is written. -/
def parse_file (dom : XNode) : Except Unit ContourCatalog :=
  traverse_node dom []

/-! ## Specification-side observers

These definitions restate, directly from the spec's vocabulary, the
quantities the claims talk about (raw points, scale factors, document-order
occurrence lists, reachability of a malformed record).  The theorems below
relate them to the embedded source functions. -/

/-- The point-record children (direct element children of every
`"Points"`-keyed child), concatenated in document order. -/
def pointRecords : List XNode → List XNode
  | [] => []
  | c2 :: rest =>
      (if getAttribute "Hash:key" c2 == "Points" then
        keep_element_nodes (childrenOf c2)
      else []) ++ pointRecords rest

/-- The raw (unscaled) coordinate pairs collected for one contour, in
document order over the `"Points"`-keyed children. -/
def rawPointsE : List XNode → Except Unit Contour
  | [] => .ok []
  | c2 :: rest =>
    if getAttribute "Hash:key" c2 == "Points" then
      match parsePoints (keep_element_nodes (childrenOf c2)) with
      | .error e => .error e
      | .ok ps => (rawPointsE rest).map (fun raw => ps ++ raw)
    else rawPointsE rest

/-- The `"SubpixelResolution"`-keyed children of one contour, in document
order. -/
def subChildrenOf : List XNode → List XNode
  | [] => []
  | c2 :: rest =>
      (if getAttribute "Hash:key" c2 == "SubpixelResolution" then [c2] else []) ++
        subChildrenOf rest

/-- The text payloads of a list of nodes (each must have one). -/
def readSubs : List XNode → Except Unit (List ℚ)
  | [] => .ok []
  | c :: rest =>
    match firstChildData c with
    | none => .error ()
    | some d => (readSubs rest).map (fun ds => d :: ds)

/-- The scale-factor payloads of one contour's `"SubpixelResolution"`-keyed
children, in document order. -/
def subFactorsE : List XNode → Except Unit (List ℚ)
  | [] => .ok []
  | c2 :: rest =>
    if getAttribute "Hash:key" c2 == "SubpixelResolution" then
      match firstChildData c2 with
      | none => .error ()
      | some d => (subFactorsE rest).map (fun ds => d :: ds)
    else subFactorsE rest

/-- The value `lastNE L d`: the last non-empty `ContourSet` of `L`, or `d` when every
entry of `L` is empty.  This is what a document-order sequence of guarded
`catalog[uid] = contours` assignments leaves behind for one `uid`. -/
def lastNE (L : List ContourSet) (d : Option ContourSet) : Option ContourSet :=
  match (L.filter (fun s => !s.isEmpty)).getLast? with
  | some s => some s
  | none => d

/-- The `parse_contours` results of the `"Contours"`-keyed children of one
image node, in document order (every one is parsed regardless of UID). -/
def imageContoursResults : List XNode → Except Unit (List ContourSet)
  | [] => .ok []
  | c3 :: rest =>
    if getAttribute "Hash:key" c3 == "Contours" then
      match parse_contours c3 with
      | .error e => .error e
      | .ok cs => (imageContoursResults rest).map (fun L => cs :: L)
    else imageContoursResults rest

/-- The extraction results contributed to UID `u` by one `ImageStates`
region's image children, in document order. -/
def imagesOccs (u : String) : List XNode → Except Unit (List ContourSet)
  | [] => .ok []
  | img :: rest =>
    match imageContoursResults (keep_element_nodes (childrenOf img)) with
    | .error e => .error e
    | .ok L1 =>
        (imagesOccs u rest).map
          (fun L2 => (if getAttribute "Hash:key" img == u then L1 else []) ++ L2)

mutual

/-- All extraction results for UID `u` below a node, in the document order
in which the traversal produces them. -/
def occurrences (u : String) : XNode → Except Unit (List ContourSet)
  | .text _ => .ok []
  | .elem _ _ cs => occurrencesList u cs

/-- The collector `occurrences` over a sibling list: the results an `ImageStates` child
contributes directly come before the results found inside that child. -/
def occurrencesList (u : String) : List XNode → Except Unit (List ContourSet)
  | [] => .ok []
  | c :: rest =>
    match (if isElem c && (getAttribute "Hash:key" c == "ImageStates") then
            imagesOccs u (keep_element_nodes (childrenOf c))
          else Except.ok []) with
    | .error e => .error e
    | .ok L1 =>
      match occurrences u c with
      | .error e => .error e
      | .ok L2 => (occurrencesList u rest).map (fun L3 => L1 ++ L2 ++ L3)

end

mutual

/-- Whether any node of the tree (itself included) is an element whose
`Hash:key` attribute is `"ImageStates"`. -/
def containsImageStates : XNode → Bool
  | .text _ => false
  | .elem t a cs =>
      (getAttribute "Hash:key" (XNode.elem t a cs) == "ImageStates") ||
        containsImageStatesList cs

/-- The predicate `containsImageStates` over a sibling list. -/
def containsImageStatesList : List XNode → Bool
  | [] => false
  | c :: rest => containsImageStates c || containsImageStatesList rest

end

/-- A malformed point record: no `"Point:x"` descendant, or no `"Point:y"`
descendant, or a matched coordinate element without a text payload (for
each coordinate, "has a first match carrying a payload" is the composite
`head?`-then-payload lookup being `some`). -/
def malformedPointRecord (r : XNode) : Bool :=
  (((getElementsByTagName "Point:x" r).head?).bind firstChildData).isNone ||
    (((getElementsByTagName "Point:y" r).head?).bind firstChildData).isNone

/-- One contour entry has a `"Points"`-keyed element child holding a
malformed point record among its direct element children. -/
def contourChildMalformed (child : XNode) : Bool :=
  (keep_element_nodes (childrenOf child)).any (fun c2 =>
    getAttribute "Hash:key" c2 == "Points" &&
      (keep_element_nodes (childrenOf c2)).any malformedPointRecord)

/-- A `Contours` node with a malformed record in one of its entries. -/
def contoursNodeMalformed (c3 : XNode) : Bool :=
  (keep_element_nodes (childrenOf c3)).any contourChildMalformed

/-- An image node with a malformed record under a `"Contours"`-keyed
child. -/
def imageMalformed (c2 : XNode) : Bool :=
  (keep_element_nodes (childrenOf c2)).any (fun c3 =>
    getAttribute "Hash:key" c3 == "Contours" && contoursNodeMalformed c3)

/-- An `ImageStates` node one of whose image children is malformed. -/
def imageStatesMalformed (c : XNode) : Bool :=
  (keep_element_nodes (childrenOf c)).any imageMalformed

mutual

/-- Whether the traversal *into* this node reaches a malformed point
record (the node itself is never matched against `"ImageStates"`, only
its descendants are). -/
def nodeReachableMalformed : XNode → Bool
  | .text _ => false
  | .elem _ _ cs => hasReachableMalformedList cs

/-- Whether the traversal of this sibling list reaches a malformed point
record: some element child keyed `"ImageStates"` has one under an image's
`"Contours"`-keyed child, or some descendant sibling list does. -/
def hasReachableMalformedList : List XNode → Bool
  | [] => false
  | c :: rest =>
      (isElem c && (getAttribute "Hash:key" c == "ImageStates") &&
          imageStatesMalformed c) ||
        nodeReachableMalformed c ||
        hasReachableMalformedList rest

end

/-- The amended reachability premise for the fail-fast property: the
document holds a malformed point record at a position the extraction
actually visits. -/
def hasReachableMalformed (n : XNode) : Bool :=
  nodeReachableMalformed n

mutual

/-- The claim's literal premise: *somewhere* in the tree (reachable by the
extraction or not) sits a `"Points"`-keyed element one of whose direct
element children is a malformed point record. -/
def hasMalformedPointsNode : XNode → Bool
  | .text _ => false
  | .elem t a cs =>
      (getAttribute "Hash:key" (XNode.elem t a cs) == "Points" &&
          (keep_element_nodes cs).any malformedPointRecord) ||
        hasMalformedPointsNodeList cs

/-- The predicate `hasMalformedPointsNode` over a sibling list. -/
def hasMalformedPointsNodeList : List XNode → Bool
  | [] => false
  | c :: rest => hasMalformedPointsNode c || hasMalformedPointsNodeList rest

end

/-! ## Helper lemmas -/

theorem dictGet_dictInsert {α : Type} (u k : String) (v : α)
    (d : List (String × α)) :
    dictGet u (dictInsert k v d) = if k == u then some v else dictGet u d := by
  induction d with
  | nil => simp [dictInsert, dictGet]
  | cons p rest ih =>
    obtain ⟨k', v'⟩ := p
    by_cases h1 : k' = k
    · subst h1
      by_cases h2 : k' = u
      · subst h2; simp [dictInsert, dictGet]
      · simp [dictInsert, dictGet, h2]
    · by_cases h2 : k' = u
      · subst h2
        have hk : ¬(k = k') := fun h => h1 h.symm
        simp [dictInsert, dictGet, h1, hk]
      · simp [dictInsert, dictGet, h1, h2, ih]

theorem lastNE_nil (d : Option ContourSet) : lastNE [] d = d := rfl

theorem lastNE_cons (x : ContourSet) (L : List ContourSet)
    (d : Option ContourSet) :
    lastNE (x :: L) d = lastNE L (if x.isEmpty then d else some x) := by
  by_cases hx : x.isEmpty
  · simp [lastNE, hx]
  · simp only [lastNE, List.filter_cons]
    simp only [hx, Bool.not_false]
    cases hfl : L.filter (fun s => !s.isEmpty) with
    | nil => simp [hx]
    | cons y ys =>
      cases hgl : (y :: ys).getLast? with
      | none => simp [List.getLast?_eq_none_iff] at hgl
      | some s => simp [List.getLast?_cons_cons, hgl]

theorem lastNE_append (L1 L2 : List ContourSet) (d : Option ContourSet) :
    lastNE (L1 ++ L2) d = lastNE L2 (lastNE L1 d) := by
  induction L1 generalizing d with
  | nil => simp [lastNE_nil]
  | cons x L1 ih => rw [List.cons_append, lastNE_cons, ih, ← lastNE_cons]

theorem lastNE_isSome_of_mem (x : ContourSet) (L : List ContourSet)
    (d : Option ContourSet) (hx : x ∈ L) (hne : x.isEmpty = false) :
    (lastNE L d).isSome := by
  have hmem : x ∈ L.filter (fun s => !s.isEmpty) :=
    List.mem_filter.2 ⟨hx, by simp [hne]⟩
  have hfl : L.filter (fun s => !s.isEmpty) ≠ [] := by
    intro h; rw [h] at hmem; exact absurd hmem (List.not_mem_nil x)
  unfold lastNE
  cases hgl : (L.filter (fun s => !s.isEmpty)).getLast? with
  | none => exact absurd (List.getLast?_eq_none_iff.1 hgl) hfl
  | some s => simp

theorem parsePoints_append (l1 l2 : List XNode) :
    parsePoints (l1 ++ l2) =
      (parsePoints l1).bind (fun a => (parsePoints l2).map (fun b => a ++ b)) := by
  induction l1 with
  | nil =>
    cases h : parsePoints l2 <;> simp [parsePoints, Except.bind, Except.map, h]
  | cons r rest ih =>
    cases hr : parsePoint r with
    | error e => simp [parsePoints, hr, Except.bind]
    | ok p =>
      simp only [List.cons_append, parsePoints, hr]
      cases h1 : parsePoints rest <;> cases h2 : parsePoints l2 <;>
        simp [Except.bind, Except.map, ih, h1, h2]

theorem parsePoints_index (l : List XNode) (ps : Contour)
    (h : parsePoints l = .ok ps) :
    ps.length = l.length ∧
      ∀ (i : ℕ) (hi : i < ps.length) (hl : i < l.length),
        ∃ p, parsePoint (l.get ⟨i, hl⟩) = .ok p ∧ ps.get ⟨i, hi⟩ = p := by
  induction l generalizing ps with
  | nil =>
    simp [parsePoints] at h
    subst h
    exact ⟨rfl, fun i hi => by simp at hi⟩
  | cons r rest ih =>
    cases hr : parsePoint r with
    | error e => simp [parsePoints, hr] at h
    | ok p =>
      cases hrest : parsePoints rest with
      | error e => simp [parsePoints, hr, hrest, Except.map] at h
      | ok qs =>
        simp [parsePoints, hr, hrest, Except.map] at h
        subst h
        obtain ⟨hlen, hidx⟩ := ih qs hrest
        refine ⟨by simp [hlen], ?_⟩
        intro i hi hl
        match i with
        | 0 => exact ⟨p, hr, rfl⟩
        | Nat.succ j =>
          exact hidx j (by simpa using hi) (by simpa using hl)

theorem readSubs_index (l : List XNode) (ds : List ℚ)
    (h : readSubs l = .ok ds) :
    ds.length = l.length ∧
      ∀ (i : ℕ) (hi : i < ds.length) (hl : i < l.length),
        firstChildData (l.get ⟨i, hl⟩) = some (ds.get ⟨i, hi⟩) := by
  induction l generalizing ds with
  | nil =>
    simp [readSubs] at h
    subst h
    exact ⟨rfl, fun i hi => by simp at hi⟩
  | cons c rest ih =>
    cases hc : firstChildData c with
    | none => simp [readSubs, hc] at h
    | some d =>
      cases hrest : readSubs rest with
      | error e => simp [readSubs, hc, hrest, Except.map] at h
      | ok ds' =>
        simp [readSubs, hc, hrest, Except.map] at h
        subst h
        obtain ⟨hlen, hidx⟩ := ih ds' hrest
        refine ⟨by simp [hlen], ?_⟩
        intro i hi hl
        match i with
        | 0 => simpa using hc
        | Nat.succ j => exact hidx j (by simpa using hi) (by simpa using hl)

theorem readSubs_getLast (l : List XNode) (ds : List ℚ)
    (h : readSubs l = .ok ds) (hne : l ≠ []) :
    ∃ c d, l.getLast? = some c ∧ ds.getLast? = some d ∧
      firstChildData c = some d := by
  induction l generalizing ds with
  | nil => exact absurd rfl hne
  | cons c rest ih =>
    cases hc : firstChildData c with
    | none => simp [readSubs, hc] at h
    | some d =>
      cases hrest : readSubs rest with
      | error e => simp [readSubs, hc, hrest, Except.map] at h
      | ok ds' =>
        simp [readSubs, hc, hrest, Except.map] at h
        subst h
        cases hr : rest with
        | nil =>
          subst hr
          simp [readSubs] at hrest
          subst hrest
          exact ⟨c, d, rfl, rfl, hc⟩
        | cons r2 t =>
          obtain ⟨c', d', hcl, hdl, hfd⟩ := ih ds' hrest (by simp [hr])
          subst hr
          refine ⟨c', d', by simpa [List.getLast?_cons_cons] using hcl, ?_, hfd⟩
          have hds' : ds' ≠ [] := by
            intro hnil; rw [hnil] at hdl; simp at hdl
          cases ds' with
          | nil => exact absurd rfl hds'
          | cons e es => simpa [List.getLast?_cons_cons] using hdl

theorem rawPointsE_eq (cs : List XNode) :
    rawPointsE cs = parsePoints (pointRecords cs) := by
  induction cs with
  | nil => simp [rawPointsE, pointRecords, parsePoints]
  | cons c2 rest ih =>
    by_cases hp : getAttribute "Hash:key" c2 = "Points"
    · simp only [rawPointsE, pointRecords, hp, beq_self_eq_true, if_true,
        parsePoints_append]
      cases hr : parsePoints (keep_element_nodes (childrenOf c2)) <;>
        cases h2 : parsePoints (pointRecords rest) <;>
          simp [Except.bind, Except.map, ih, hr, h2]
    · simp [rawPointsE, pointRecords, hp, ih]

theorem subFactorsE_eq (cs : List XNode) :
    subFactorsE cs = readSubs (subChildrenOf cs) := by
  induction cs with
  | nil => simp [subFactorsE, subChildrenOf, readSubs]
  | cons c2 rest ih =>
    by_cases hs : getAttribute "Hash:key" c2 = "SubpixelResolution"
    · simp only [subFactorsE, subChildrenOf, hs, beq_self_eq_true, if_true,
        List.singleton_append, readSubs]
      cases hc : firstChildData c2 <;> simp [ih]
    · simp [subFactorsE, subChildrenOf, hs, ih]

theorem getLast?_cons_getD {α : Type} (d x : α) (l : List α) :
    ((d :: l).getLast?).getD x = (l.getLast?).getD d := by
  cases l with
  | nil => rfl
  | cons a t =>
    rw [List.getLast?_cons_cons]
    cases hgl : (a :: t).getLast? with
    | none => simp [List.getLast?_eq_none_iff] at hgl
    | some s => simp

theorem scanContourChildren_eq (cs : List XNode) (pts : Contour) (sub : ℚ) :
    scanContourChildren cs pts sub =
      match rawPointsE cs, subFactorsE cs with
      | .ok raw, .ok subs => .ok (pts ++ raw, (subs.getLast?).getD sub)
      | _, _ => .error () := by
  induction cs generalizing pts sub with
  | nil => simp [scanContourChildren, rawPointsE, subFactorsE]
  | cons c2 rest ih =>
    cases hb : getAttribute "Hash:key" c2 == "Points" with
    | true =>
      have hps : (getAttribute "Hash:key" c2 == "SubpixelResolution") = false := by
        rw [show getAttribute "Hash:key" c2 = "Points" from eq_of_beq hb]
        decide
      cases hr : parsePoints (keep_element_nodes (childrenOf c2)) with
      | error e =>
        simp [scanContourChildren, rawPointsE, hb, hps, hr, Except.map]
      | ok ps =>
        simp only [scanContourChildren, rawPointsE, subFactorsE, hb, hps, hr,
          Except.map, if_true, Bool.false_eq_true, if_false]
        rw [ih]
        cases h1 : rawPointsE rest <;> cases h2 : subFactorsE rest <;>
          simp [List.append_assoc]
    | false =>
      cases hs : getAttribute "Hash:key" c2 == "SubpixelResolution" with
      | true =>
        cases hc : firstChildData c2 with
        | none =>
          cases h1 : rawPointsE rest <;>
            simp [scanContourChildren, rawPointsE, subFactorsE, hb, hs, hc, h1]
        | some d =>
          simp only [scanContourChildren, rawPointsE, subFactorsE, hb, hs, hc,
            Except.map, if_true, Bool.false_eq_true, if_false]
          rw [ih]
          cases h1 : rawPointsE rest <;> cases h2 : subFactorsE rest <;>
            simp [getLast?_cons_getD]
      | false =>
        simp only [scanContourChildren, rawPointsE, subFactorsE, hb, hs,
          Bool.false_eq_true, if_false]
        exact ih pts sub

theorem parseContourChild_eq (child : XNode) :
    parseContourChild child =
      match rawPointsE (keep_element_nodes (childrenOf child)),
          subFactorsE (keep_element_nodes (childrenOf child)) with
      | .ok raw, .ok subs =>
          .ok (raw.map (fun p => (p.1 / (subs.getLast?).getD 1,
            p.2 / (subs.getLast?).getD 1)))
      | _, _ => .error () := by
  unfold parseContourChild
  rw [scanContourChildren_eq]
  cases h1 : rawPointsE (keep_element_nodes (childrenOf child)) <;>
    cases h2 : subFactorsE (keep_element_nodes (childrenOf child)) <;> simp

theorem parseContoursList_master (cs : List XNode) (acc m : ContourSet)
    (h : parseContoursList cs acc = .ok m) (nm : String) :
    match (cs.filter (fun c => getAttribute "Hash:key" c == nm)).getLast? with
    | none => dictGet nm m = dictGet nm acc
    | some c => ∃ pts, parseContourChild c = .ok pts ∧ dictGet nm m = some pts := by
  induction cs generalizing acc with
  | nil =>
    simp only [parseContoursList] at h
    cases h
    simp
  | cons child rest ih =>
    cases hp : parseContourChild child with
    | error e => simp [parseContoursList, hp] at h
    | ok pts =>
      simp only [parseContoursList, hp] at h
      have hrec := ih _ h
      cases hb : getAttribute "Hash:key" child == nm with
      | false =>
        simp only [List.filter_cons, hb, Bool.false_eq_true, if_false]
        cases hfl : (rest.filter
            (fun c => getAttribute "Hash:key" c == nm)).getLast? with
        | none =>
          rw [hfl] at hrec
          simp only at hrec
          rw [hrec, dictGet_dictInsert, hb]
          simp
        | some c =>
          rw [hfl] at hrec
          exact hrec
      | true =>
        simp only [List.filter_cons, hb, if_true]
        cases hfl : rest.filter (fun c => getAttribute "Hash:key" c == nm) with
        | nil =>
          rw [hfl] at hrec
          simp only [List.getLast?_nil] at hrec
          simp only [List.getLast?_singleton]
          exact ⟨pts, hp, by rw [hrec, dictGet_dictInsert, hb]; simp⟩
        | cons y ys =>
          rw [hfl] at hrec
          rw [List.getLast?_cons_cons]
          exact hrec

theorem parseContoursList_child_ok (cs : List XNode) (acc m : ContourSet)
    (h : parseContoursList cs acc = .ok m) :
    ∀ c ∈ cs, ∃ pts, parseContourChild c = .ok pts := by
  induction cs generalizing acc with
  | nil => intro c hc; cases hc
  | cons child rest ih =>
    intro c hc
    cases hp : parseContourChild child with
    | error e => simp [parseContoursList, hp] at h
    | ok pts =>
      simp only [parseContoursList, hp] at h
      rcases List.mem_cons.1 hc with rfl | hmem
      · exact ⟨pts, hp⟩
      · exact ih _ h c hmem

theorem processImageChild_master (c3s : List XNode) (uid : String)
    (cat cat' : ContourCatalog) (h : processImageChild uid c3s cat = .ok cat')
    (u : String) :
    ∃ L, imageContoursResults c3s = .ok L ∧
      dictGet u cat' =
        if uid == u then lastNE L (dictGet u cat) else dictGet u cat := by
  induction c3s generalizing cat with
  | nil =>
    simp only [processImageChild] at h
    cases h
    exact ⟨[], rfl, by cases uid == u <;> simp [lastNE_nil]⟩
  | cons c3 rest ih =>
    cases hb : getAttribute "Hash:key" c3 == "Contours" with
    | false =>
      simp only [processImageChild, hb, Bool.false_eq_true, if_false] at h
      obtain ⟨L, hL, hg⟩ := ih _ h
      exact ⟨L, by simp [imageContoursResults, hb, hL], hg⟩
    | true =>
      simp only [processImageChild, hb, if_true] at h
      cases hpc : parse_contours c3 with
      | error e => rw [hpc] at h; cases h
      | ok cs =>
        rw [hpc] at h
        obtain ⟨L, hL, hg⟩ := ih _ h
        refine ⟨cs :: L,
          by simp [imageContoursResults, hb, hpc, hL, Except.map], ?_⟩
        rw [hg]
        cases hu : uid == u with
        | false =>
          simp only [Bool.false_eq_true, if_false]
          cases hemp : cs.isEmpty with
          | true => simp [hemp]
          | false => simp [hemp, dictGet_dictInsert, hu]
        | true =>
          simp only [if_true]
          rw [lastNE_cons]
          cases hemp : cs.isEmpty with
          | true => simp [hemp]
          | false => simp [hemp, dictGet_dictInsert, hu]

theorem processImages_master (imgs : List XNode) (cat cat' : ContourCatalog)
    (h : processImages imgs cat = .ok cat') (u : String) :
    ∃ L, imagesOccs u imgs = .ok L ∧
      dictGet u cat' = lastNE L (dictGet u cat) := by
  induction imgs generalizing cat with
  | nil =>
    simp only [processImages] at h
    cases h
    exact ⟨[], rfl, (lastNE_nil _).symm⟩
  | cons img rest ih =>
    cases h1 : processImageChild (getAttribute "Hash:key" img)
        (keep_element_nodes (childrenOf img)) cat with
    | error e => simp [processImages, h1] at h
    | ok cat1 =>
      simp only [processImages, h1] at h
      obtain ⟨L1, hL1, hg1⟩ := processImageChild_master _ _ _ _ h1 u
      obtain ⟨L2, hL2, hg2⟩ := ih _ h
      refine ⟨(if getAttribute "Hash:key" img == u then L1 else []) ++ L2,
        by simp [imagesOccs, hL1, hL2, Except.map], ?_⟩
      rw [hg2, hg1, lastNE_append]
      cases hu : getAttribute "Hash:key" img == u <;> simp [lastNE_nil]

theorem sizeOf_childrenOf_lt (c : XNode) : sizeOf (childrenOf c) < 1 + sizeOf c := by
  cases c <;> (simp [childrenOf]; try omega)

theorem traverse_node_as_children (c : XNode) (cat : ContourCatalog) :
    traverse_node c cat = traverseChildren (childrenOf c) cat := by
  cases c <;> rfl

theorem occurrences_as_children (u : String) (c : XNode) :
    occurrences u c = occurrencesList u (childrenOf c) := by
  cases c <;> rfl

theorem traverseChildren_master (cs : List XNode) (cat cat' : ContourCatalog)
    (h : traverseChildren cs cat = .ok cat') (u : String) :
    ∃ L, occurrencesList u cs = .ok L ∧
      dictGet u cat' = lastNE L (dictGet u cat) := by
  match cs with
  | [] =>
    simp only [traverseChildren] at h
    cases h
    exact ⟨[], rfl, (lastNE_nil _).symm⟩
  | c :: rest =>
    simp only [traverseChildren] at h
    cases hstep : (if isElem c && (getAttribute "Hash:key" c == "ImageStates")
        then processImages (keep_element_nodes (childrenOf c)) cat
        else Except.ok cat) with
    | error e => rw [hstep] at h; simp at h
    | ok cat1 =>
      rw [hstep] at h
      simp only at h
      cases htr : traverse_node c cat1 with
      | error e => rw [htr] at h; simp at h
      | ok cat2 =>
        rw [htr] at h
        simp only at h
        have step1 : ∃ L1,
            (if isElem c && (getAttribute "Hash:key" c == "ImageStates") then
              imagesOccs u (keep_element_nodes (childrenOf c))
            else Except.ok []) = .ok L1 ∧
            dictGet u cat1 = lastNE L1 (dictGet u cat) := by
          cases hmark : isElem c && (getAttribute "Hash:key" c == "ImageStates") with
          | true =>
            rw [hmark] at hstep
            simp only [if_true] at hstep ⊢
            obtain ⟨L1, hL1, hg1⟩ := processImages_master _ _ _ hstep u
            exact ⟨L1, hL1, hg1⟩
          | false =>
            rw [hmark] at hstep
            simp only [Bool.false_eq_true, if_false] at hstep ⊢
            cases hstep
            exact ⟨[], rfl, (lastNE_nil _).symm⟩
        have htr' : traverseChildren (childrenOf c) cat1 = .ok cat2 := by
          rw [← traverse_node_as_children]; exact htr
        obtain ⟨L1, hL1, hg1⟩ := step1
        obtain ⟨L2, hL2c, hg2⟩ :=
          traverseChildren_master (childrenOf c) cat1 cat2 htr' u
        have hL2 : occurrences u c = .ok L2 := by
          rw [occurrences_as_children]; exact hL2c
        obtain ⟨L3, hL3, hg3⟩ := traverseChildren_master rest cat2 cat' h u
        refine ⟨L1 ++ L2 ++ L3, ?_, ?_⟩
        · simp only [occurrencesList]
          rw [hL1, hL2, hL3]
          simp [Except.map]
        · rw [hg3, hg2, hg1, lastNE_append, lastNE_append]
termination_by sizeOf cs
decreasing_by
  all_goals have hlt := sizeOf_childrenOf_lt c
  all_goals try simp
  all_goals try omega

/-- The node-level master correspondence: a successful traversal's final
lookup for `u` is the last non-empty occurrence collected for `u`, falling
back to the accumulator's entry. -/
theorem traverse_node_master (n : XNode) (cat cat' : ContourCatalog)
    (h : traverse_node n cat = .ok cat') (u : String) :
    ∃ L, occurrences u n = .ok L ∧
      dictGet u cat' = lastNE L (dictGet u cat) := by
  cases n with
  | text d =>
    simp only [traverse_node] at h
    cases h
    exact ⟨[], rfl, (lastNE_nil _).symm⟩
  | elem t a ccs =>
    obtain ⟨L, hL, hg⟩ :=
      traverseChildren_master ccs cat cat' (by simpa [traverse_node] using h) u
    exact ⟨L, by simpa [occurrences] using hL, hg⟩

theorem containsImageStatesList_children (n : XNode)
    (h : containsImageStates n = false) :
    containsImageStatesList (childrenOf n) = false := by
  cases n with
  | text d => rfl
  | elem t a ccs =>
    simp only [containsImageStates, Bool.or_eq_false_iff] at h
    simpa [childrenOf] using h.2

theorem traverseChildren_no_marker (cs : List XNode) (cat : ContourCatalog)
    (h : containsImageStatesList cs = false) :
    traverseChildren cs cat = .ok cat := by
  match cs with
  | [] => rfl
  | c :: rest =>
    have h1 : containsImageStates c = false ∧
        containsImageStatesList rest = false := by
      simpa [containsImageStatesList, Bool.or_eq_false_iff] using h
    have hmark : (isElem c && (getAttribute "Hash:key" c == "ImageStates")) = false := by
      cases c with
      | text d => rfl
      | elem t a ccs =>
        have h2 := h1.1
        simp only [containsImageStates, Bool.or_eq_false_iff] at h2
        simp [isElem, h2.1]
    have hch : containsImageStatesList (childrenOf c) = false :=
      containsImageStatesList_children c h1.1
    simp only [traverseChildren, hmark, Bool.false_eq_true, if_false]
    rw [traverse_node_as_children, traverseChildren_no_marker (childrenOf c) cat hch]
    exact traverseChildren_no_marker rest cat h1.2
termination_by sizeOf cs
decreasing_by
  all_goals have hlt := sizeOf_childrenOf_lt c
  all_goals try simp
  all_goals try omega

theorem parsePoint_error_of_malformed (r : XNode)
    (h : malformedPointRecord r = true) : parsePoint r = .error () := by
  unfold malformedPointRecord at h
  simp only [Bool.or_eq_true, Option.isNone_iff_eq_none] at h
  unfold parsePoint
  cases hx : ((getElementsByTagName "Point:x" r).head?).bind firstChildData with
  | none => rfl
  | some x =>
    cases hy : ((getElementsByTagName "Point:y" r).head?).bind firstChildData with
    | none => rfl
    | some y =>
      rcases h with h | h
      · rw [hx] at h; cases h
      · rw [hy] at h; cases h

theorem parsePoints_error_of_mem (l : List XNode) (r : XNode) (hr : r ∈ l)
    (hm : malformedPointRecord r = true) : parsePoints l = .error () := by
  induction l with
  | nil => cases hr
  | cons r' rest ih =>
    rcases List.mem_cons.1 hr with rfl | hmem
    · simp [parsePoints, parsePoint_error_of_malformed _ hm]
    · cases hp : parsePoint r' with
      | error e => simp [parsePoints, hp]
      | ok p => simp [parsePoints, hp, ih hmem, Except.map]

theorem scanContourChildren_error_of_malformed (cs : List XNode)
    (pts : Contour) (sub : ℚ)
    (h : cs.any (fun c2 => getAttribute "Hash:key" c2 == "Points" &&
      (keep_element_nodes (childrenOf c2)).any malformedPointRecord) = true) :
    scanContourChildren cs pts sub = .error () := by
  induction cs generalizing pts sub with
  | nil => cases h
  | cons c2 rest ih =>
    simp only [List.any_cons, Bool.or_eq_true, Bool.and_eq_true] at h
    rcases h with ⟨hkey, hmal⟩ | hrest
    · obtain ⟨r, hrmem, hrmal⟩ := List.any_eq_true.1 hmal
      simp [scanContourChildren, hkey,
        parsePoints_error_of_mem _ r hrmem hrmal, Except.map]
    · simp only [scanContourChildren]
      cases hstep : (if getAttribute "Hash:key" c2 == "Points" then
          (parsePoints (keep_element_nodes (childrenOf c2))).map
            (fun ps => pts ++ ps)
        else Except.ok pts) with
      | error e => rfl
      | ok pts' =>
        cases hstep2 : (if getAttribute "Hash:key" c2 == "SubpixelResolution" then
            match firstChildData c2 with
            | none => Except.error ()
            | some d => Except.ok d
          else Except.ok sub) with
        | error e => rfl
        | ok sub' => exact ih _ _ (List.any_eq_true.2
            (by obtain ⟨x, hx1, hx2⟩ := List.any_eq_true.1 hrest
                exact ⟨x, hx1, hx2⟩))

theorem parseContourChild_error_of_malformed (child : XNode)
    (h : contourChildMalformed child = true) :
    parseContourChild child = .error () := by
  unfold contourChildMalformed at h
  unfold parseContourChild
  rw [scanContourChildren_error_of_malformed _ [] 1 h]

theorem parseContoursList_error_of_malformed (cs : List XNode)
    (acc : ContourSet) (h : cs.any contourChildMalformed = true) :
    parseContoursList cs acc = .error () := by
  induction cs generalizing acc with
  | nil => cases h
  | cons child rest ih =>
    simp only [List.any_cons, Bool.or_eq_true] at h
    rcases h with hc | hrest
    · simp [parseContoursList, parseContourChild_error_of_malformed child hc]
    · cases hp : parseContourChild child with
      | error e => simp [parseContoursList, hp]
      | ok pts => simp [parseContoursList, hp, ih _ hrest]

theorem parse_contours_error_of_malformed (c3 : XNode)
    (h : contoursNodeMalformed c3 = true) :
    parse_contours c3 = .error () := by
  unfold contoursNodeMalformed at h
  exact parseContoursList_error_of_malformed _ _ h

theorem processImageChild_error_of_malformed (uid : String) (c3s : List XNode)
    (cat : ContourCatalog)
    (h : c3s.any (fun c3 => getAttribute "Hash:key" c3 == "Contours" &&
      contoursNodeMalformed c3) = true) :
    processImageChild uid c3s cat = .error () := by
  induction c3s generalizing cat with
  | nil => cases h
  | cons c3 rest ih =>
    simp only [List.any_cons, Bool.or_eq_true, Bool.and_eq_true] at h
    rcases h with ⟨hkey, hmal⟩ | hrest
    · simp [processImageChild, hkey, parse_contours_error_of_malformed c3 hmal]
    · cases hkey : getAttribute "Hash:key" c3 == "Contours" with
      | false =>
        simp only [processImageChild, hkey, Bool.false_eq_true, if_false]
        exact ih _ (List.any_eq_true.2 (List.any_eq_true.1 hrest))
      | true =>
        simp only [processImageChild, hkey, if_true]
        cases hpc : parse_contours c3 with
        | error e => rfl
        | ok cs => exact ih _ (List.any_eq_true.2 (List.any_eq_true.1 hrest))

theorem processImages_error_of_malformed (imgs : List XNode)
    (cat : ContourCatalog) (h : imgs.any imageMalformed = true) :
    processImages imgs cat = .error () := by
  induction imgs generalizing cat with
  | nil => cases h
  | cons img rest ih =>
    simp only [List.any_cons, Bool.or_eq_true] at h
    rcases h with himg | hrest
    · unfold imageMalformed at himg
      simp [processImages,
        processImageChild_error_of_malformed _ _ cat himg]
    · cases h1 : processImageChild (getAttribute "Hash:key" img)
          (keep_element_nodes (childrenOf img)) cat with
      | error e => simp [processImages, h1]
      | ok cat1 => simp [processImages, h1, ih _ hrest]

theorem nodeReachableMalformed_children (c : XNode) :
    nodeReachableMalformed c = hasReachableMalformedList (childrenOf c) := by
  cases c <;> rfl

theorem traverseChildren_error_of_malformed (cs : List XNode)
    (cat : ContourCatalog) (h : hasReachableMalformedList cs = true) :
    traverseChildren cs cat = .error () := by
  match cs with
  | [] => cases h
  | c :: rest =>
    have h' : ((isElem c && (getAttribute "Hash:key" c == "ImageStates") &&
        imageStatesMalformed c) ||
        nodeReachableMalformed c ||
        hasReachableMalformedList rest) = true := h
    simp only [Bool.or_eq_true, Bool.and_eq_true] at h'
    simp only [traverseChildren]
    rcases h' with (⟨⟨helem, hkey⟩, hmal⟩ | hnode) | hrest
    · have hmark : (isElem c && (getAttribute "Hash:key" c == "ImageStates")) = true := by
        simp [helem, hkey]
      rw [hmark]
      simp only [if_true]
      unfold imageStatesMalformed at hmal
      rw [processImages_error_of_malformed _ cat hmal]
    · cases hstep : (if isElem c && (getAttribute "Hash:key" c == "ImageStates")
          then processImages (keep_element_nodes (childrenOf c)) cat
          else Except.ok cat) with
      | error e => rfl
      | ok cat1 =>
        show (match traverse_node c cat1 with
          | Except.error e => Except.error e
          | Except.ok cat2 => traverseChildren rest cat2) = Except.error ()
        rw [traverse_node_as_children,
          traverseChildren_error_of_malformed (childrenOf c) cat1
            (by rw [← nodeReachableMalformed_children]; exact hnode)]
    · cases hstep : (if isElem c && (getAttribute "Hash:key" c == "ImageStates")
          then processImages (keep_element_nodes (childrenOf c)) cat
          else Except.ok cat) with
      | error e => rfl
      | ok cat1 =>
        show (match traverse_node c cat1 with
          | Except.error e => Except.error e
          | Except.ok cat2 => traverseChildren rest cat2) = Except.error ()
        cases htr : traverse_node c cat1 with
        | error e => rfl
        | ok cat2 => exact traverseChildren_error_of_malformed rest cat2 hrest
termination_by sizeOf cs
decreasing_by
  all_goals have hlt := sizeOf_childrenOf_lt c
  all_goals try simp
  all_goals try omega

/-! ## Concrete example documents

Small documents used to check that the hypotheses of the theorems below are
satisfiable, and to exhibit counterexamples. -/

/-- A point record `<p><Point:x>x</Point:x><Point:y>y</Point:y></p>`. -/
def mkPt (x y : ℚ) : XNode :=
  .elem "p" [] [.elem "Point:x" [] [.text x], .elem "Point:y" [] [.text y]]

/-- A `"Points"`-keyed list of point records. -/
def ptsNode (ps : List (ℚ × ℚ)) : XNode :=
  .elem "list" [("Hash:key", "Points")] (ps.map fun p => mkPt p.1 p.2)

/-- A `"SubpixelResolution"`-keyed scalar. -/
def subNode (s : ℚ) : XNode :=
  .elem "n" [("Hash:key", "SubpixelResolution")] [.text s]

/-- One named contour entry. -/
def contourNode (nm : String) (cs : List XNode) : XNode :=
  .elem "map" [("Hash:key", nm)] cs

/-- A `"Contours"`-keyed collection. -/
def contoursNode (cs : List XNode) : XNode :=
  .elem "map" [("Hash:key", "Contours")] cs

/-- One image node with its UID. -/
def imgNode (uid : String) (cs : List XNode) : XNode :=
  .elem "map" [("Hash:key", uid)] cs

/-- An `"ImageStates"`-keyed region. -/
def imageStatesNode (imgs : List XNode) : XNode :=
  .elem "map" [("Hash:key", "ImageStates")] imgs

/-- A `Contours` node holding one named contour with zero point records. -/
def cexContoursNode : XNode := contoursNode [contourNode "LV" []]

/-- Document whose single image yields a named-but-empty contour. -/
def docNamedEmpty : XNode :=
  .elem "doc" [] [imageStatesNode [imgNode "img1" [cexContoursNode]]]

/-- Document whose single image's `Contours` node has no entries at all. -/
def docAllEmpty : XNode :=
  .elem "doc" [] [imageStatesNode [imgNode "u1" [contoursNode []]]]

/-- A point record with no `Point:x`/`Point:y` descendants. -/
def badRecord : XNode := .elem "rec" [] []

/-- Document with a malformed `"Points"`-keyed node outside any
`ImageStates` region. -/
def docPointsOutside : XNode :=
  .elem "doc" [] [.elem "l" [("Hash:key", "Points")] [badRecord]]

/-- Document with a malformed point record in extraction position. -/
def docReachableMalformed : XNode :=
  .elem "doc" [] [imageStatesNode [imgNode "i" [contoursNode
    [contourNode "c" [.elem "l" [("Hash:key", "Points")] [badRecord]]]]]]

/-- Contour with raw points (10,20),(30,40) and SubpixelResolution 2. -/
def contourScaleEx1 : XNode :=
  contourNode "c" [ptsNode [(10, 20), (30, 40)], subNode 2]

/-- Contour with raw point (7,9) and no SubpixelResolution child. -/
def contourScaleEx2 : XNode := contourNode "c" [ptsNode [(7, 9)]]

/-- Document with the same UID under two `ImageStates` regions. -/
def docDupUID : XNode :=
  .elem "doc" [] [
    imageStatesNode [imgNode "u" [contoursNode [contourNode "a" [ptsNode [(1, 1)]]]]],
    imageStatesNode [imgNode "u" [contoursNode [contourNode "b" [ptsNode [(2, 2)]]]]]]

/-- A `Contours` node with two entries under the same name. -/
def contoursDupName : XNode :=
  contoursNode [contourNode "a" [ptsNode [(1, 1)]],
    contourNode "a" [ptsNode [(2, 2)]]]

/-- A document with no `ImageStates` marker anywhere. -/
def docNoIS : XNode :=
  .elem "doc" [] [.elem "x" [("Hash:key", "Other")] [.text 3]]

/-- A `Contours` node holding one contour with zero point records (plus a
sibling so insertion is observable next to non-empty data). -/
def contoursWithEmptyEntry : XNode :=
  contoursNode [contourNode "full" [ptsNode [(1, 2)]], contourNode "hollow" []]

/-- A contour entry with no `Hash:key` attribute. -/
def contourNoKey : XNode := .elem "map" [] [ptsNode [(1, 1)]]

/-- A `Contours` node whose single entry has no `Hash:key` attribute. -/
def contoursNoKey : XNode := contoursNode [contourNoKey]

/-- An image node with no `Hash:key` attribute but non-empty contours. -/
def imgNoKey : XNode :=
  .elem "map" [] [contoursNode [contourNode "a" [ptsNode [(1, 1)]]]]

/-- Contour with two `SubpixelResolution` children (5 then 2). -/
def contourTwoSubs : XNode :=
  contourNode "a" [subNode 5, ptsNode [(10, 10)], subNode 2]

/-- Contour with two points, to observe order preservation. -/
def contourOrderEx : XNode :=
  contourNode "c" [ptsNode [(1, 2), (3, 4)]]

/-! ## Claim theorems -/

/-- C7: for every document tree containing no element node whose `Hash:key`
attribute equals `"ImageStates"` anywhere, the traversal completes without
error and produces an empty `ContourCatalog`. -/
theorem no_imagestates_yields_empty_catalog (doc : XNode)
    (h : containsImageStates doc = false) :
    parse_file doc = .ok [] := by
  unfold parse_file
  rw [traverse_node_as_children]
  exact traverseChildren_no_marker _ _ (containsImageStatesList_children doc h)

/-- Witness for C7: a concrete `ImageStates`-free document parses to the
empty catalog. -/
theorem no_imagestates_yields_empty_catalog_witness :
    containsImageStates docNoIS = false ∧ parse_file docNoIS = .ok [] :=
  ⟨rfl, no_imagestates_yields_empty_catalog docNoIS rfl⟩

/-- C2 counterexample: a document *containing* a `"Points"`-keyed node with
a malformed point record — but outside any `ImageStates` region — parses
successfully (the whole parse does NOT fail), refuting the claim as
universally stated over such documents. -/
theorem unreachable_malformed_points_no_failure_cex :
    hasMalformedPointsNode docPointsOutside = true ∧
      parse_file docPointsOutside = .ok [] :=
  ⟨rfl, rfl⟩

/-- C2 (amended): when the malformed `"Points"`-keyed node sits at a
position the extraction actually reaches (direct child of a contour entry
under a `"Contours"`-keyed child of an image node under an `ImageStates`
region), the whole parse fails and no catalog is produced. -/
theorem reachable_malformed_record_aborts_parse (doc : XNode)
    (h : hasReachableMalformed doc = true) :
    parse_file doc = .error () := by
  unfold parse_file
  rw [traverse_node_as_children]
  refine traverseChildren_error_of_malformed _ _ ?_
  rw [← nodeReachableMalformed_children]
  exact h

/-- Witness for C2: a concrete reachable malformed record aborts the
parse. -/
theorem reachable_malformed_record_aborts_parse_witness :
    hasReachableMalformed docReachableMalformed = true ∧
      parse_file docReachableMalformed = .error () :=
  ⟨rfl, reachable_malformed_record_aborts_parse docReachableMalformed rfl⟩

/-- C1 counterexample: an image whose extraction yields only empty
contours (one named contour with zero points) is nevertheless PRESENT in
the final catalog, because the source gates insertion on the dictionary
being non-empty, not on it containing points. -/
theorem catalog_includes_named_but_empty_contours_cex :
    parse_contours cexContoursNode = .ok [("LV", [])] ∧
      (∀ nc ∈ [("LV", ([] : Contour))], nc.2 = ([] : Contour)) ∧
      parse_file docNamedEmpty = .ok [("img1", [("LV", [])])] ∧
      dictGet "img1" [("img1", [("LV", ([] : Contour))])] = some [("LV", [])] := by
  refine ⟨rfl, ?_, rfl, rfl⟩
  intro nc hnc
  rw [List.mem_singleton] at hnc
  rw [hnc]

/-- C1 (amended): a UID is absent from the final catalog when every
extraction occurrence for it yields an empty `ContourSet` (no named
contours at all — a ContourSet of named-but-empty contours does count as
present). -/
theorem uid_absent_of_all_empty_occurrences (doc : XNode) (u : String)
    (cat' : ContourCatalog) (L : List ContourSet)
    (h : parse_file doc = .ok cat') (hL : occurrences u doc = .ok L)
    (hall : ∀ s ∈ L, s = ([] : ContourSet)) :
    dictGet u cat' = none := by
  unfold parse_file at h
  obtain ⟨L', hL', hg⟩ := traverse_node_master doc [] cat' h u
  rw [hL] at hL'
  cases hL'
  have hfilter : L.filter (fun s => !s.isEmpty) = [] := by
    rw [List.filter_eq_nil_iff]
    intro s hs
    rw [hall s hs]
    simp
  rw [hg]
  simp [lastNE, hfilter, dictGet]

/-- Witness for C1: a UID whose only occurrence is an entirely empty
`ContourSet` is absent from the final catalog. -/
theorem uid_absent_of_all_empty_occurrences_witness :
    dictGet "u1" ([] : ContourCatalog) = none :=
  uid_absent_of_all_empty_occurrences docAllEmpty "u1" [] [[]] rfl rfl
    (by intro s hs; rw [List.mem_singleton] at hs; exact hs)

/-- C4: within a successful traversal, the final catalog entry for a UID is
the last (in document order) non-empty extraction occurrence for that UID —
a later occurrence overwrites any earlier one. -/
theorem later_duplicate_uid_occurrence_wins (doc : XNode) (u : String)
    (cat' : ContourCatalog) (L : List ContourSet) (s : ContourSet)
    (h : parse_file doc = .ok cat') (hL : occurrences u doc = .ok L)
    (hlast : (L.filter (fun cs => !cs.isEmpty)).getLast? = some s) :
    dictGet u cat' = some s := by
  unfold parse_file at h
  obtain ⟨L', hL', hg⟩ := traverse_node_master doc [] cat' h u
  rw [hL] at hL'
  cases hL'
  rw [hg]
  unfold lastNE
  rw [hlast]

/-- Witness for C4: with the same UID under two `ImageStates` regions, the
later region's `ContourSet` is what the catalog holds. -/
theorem later_duplicate_uid_occurrence_wins_witness :
    dictGet "u" [("u", [("b", [((2 : ℚ), (2 : ℚ))])])] =
      some [("b", [(2, 2)])] :=
  later_duplicate_uid_occurrence_wins docDupUID "u"
    [("u", [("b", [(2, 2)])])]
    [[("a", [(1, 1)])], [("b", [(2, 2)])]]
    [("b", [(2, 2)])]
    (by simp +decide [parse_file, traverse_node, traverseChildren,
      processImages, processImageChild, parse_contours, parseContoursList,
      parseContourChild, scanContourChildren, parsePoints, parsePoint,
      keep_element_nodes, childrenOf, getAttribute, isElem, firstChildData,
      firstChild, nodeData, getElementsByTagName, elementsByTagList,
      elementsByTagIncl, dictInsert, Except.map, docDupUID, imageStatesNode,
      imgNode, contoursNode, contourNode, ptsNode, subNode, mkPt])
    (by simp +decide [occurrences, occurrencesList, imagesOccs,
      imageContoursResults, parse_contours, parseContoursList,
      parseContourChild, scanContourChildren, parsePoints, parsePoint,
      keep_element_nodes, childrenOf, getAttribute, isElem, firstChildData,
      firstChild, nodeData, getElementsByTagName, elementsByTagList,
      elementsByTagIncl, dictInsert, Except.map, docDupUID, imageStatesNode,
      imgNode, contoursNode, contourNode, ptsNode, subNode, mkPt])
    (by decide)

theorem parseContourChild_ok_of (child : XNode) (raw : Contour)
    (subs : List ℚ)
    (hraw : rawPointsE (keep_element_nodes (childrenOf child)) = .ok raw)
    (hsubs : subFactorsE (keep_element_nodes (childrenOf child)) = .ok subs) :
    parseContourChild child =
      .ok (raw.map (fun p => (p.1 / (subs.getLast?).getD 1,
        p.2 / (subs.getLast?).getD 1))) := by
  rw [parseContourChild_eq, hraw, hsubs]

/-- C3: a contour's final point sequence is the raw collected pairs with
each coordinate divided (exact division in `ℚ`) by the scale factor: the
payload of the `SubpixelResolution` child when one exists, `1` otherwise. -/
theorem contour_points_scaled_by_subpixel_resolution (child : XNode)
    (raw : Contour) (subs : List ℚ)
    (hraw : rawPointsE (keep_element_nodes (childrenOf child)) = .ok raw)
    (hsubs : subFactorsE (keep_element_nodes (childrenOf child)) = .ok subs)
    (hlen : subs.length ≤ 1) :
    parseContourChild child =
      .ok (raw.map (fun p => (p.1 / (subs.head?).getD 1,
        p.2 / (subs.head?).getD 1))) := by
  have hhead : subs.getLast? = subs.head? := by
    match subs with
    | [] => rfl
    | [a] => rfl
    | a :: b :: t => simp at hlen
  rw [parseContourChild_ok_of child raw subs hraw hsubs, hhead]

/-- Witness for C3: raw points (10,20),(30,40) at SubpixelResolution 2
scale to (5,10),(15,20); raw point (7,9) with no SubpixelResolution child
stays (7,9). -/
theorem contour_points_scaled_by_subpixel_resolution_witness :
    parseContourChild contourScaleEx1 =
        .ok [((5 : ℚ), (10 : ℚ)), ((15 : ℚ), (20 : ℚ))] ∧
      parseContourChild contourScaleEx2 = .ok [((7 : ℚ), (9 : ℚ))] := by
  constructor
  · rw [contour_points_scaled_by_subpixel_resolution contourScaleEx1
      [(10, 20), (30, 40)] [2] rfl rfl (by decide)]
    norm_num
  · rw [contour_points_scaled_by_subpixel_resolution contourScaleEx2
      [(7, 9)] [] rfl rfl (by decide)]
    norm_num

/-- C5: when a `Contours` node has two or more direct children carrying
the same name, the returned `ContourSet` maps that name to the points of
the last such child in document order. -/
theorem later_duplicate_contour_name_wins (node : XNode) (m : ContourSet)
    (nm : String) (h : parse_contours node = .ok m)
    (hdup : 2 ≤ ((keep_element_nodes (childrenOf node)).filter
      (fun c => getAttribute "Hash:key" c == nm)).length) :
    ∃ c pts, ((keep_element_nodes (childrenOf node)).filter
        (fun c => getAttribute "Hash:key" c == nm)).getLast? = some c ∧
      parseContourChild c = .ok pts ∧ dictGet nm m = some pts := by
  unfold parse_contours at h
  have hm := parseContoursList_master _ _ _ h nm
  cases hgl : ((keep_element_nodes (childrenOf node)).filter
      (fun c => getAttribute "Hash:key" c == nm)).getLast? with
  | none =>
    exfalso
    have hnil := List.getLast?_eq_none_iff.1 hgl
    rw [hnil] at hdup
    simp at hdup
  | some c =>
    rw [hgl] at hm
    obtain ⟨pts, hpc, hget⟩ := hm
    exact ⟨c, pts, rfl, hpc, hget⟩

/-- Witness for C5: two contours named "a"; the ContourSet maps "a" to the
second one's points. -/
theorem later_duplicate_contour_name_wins_witness :
    ∃ c pts, ((keep_element_nodes (childrenOf contoursDupName)).filter
        (fun c => getAttribute "Hash:key" c == "a")).getLast? = some c ∧
      parseContourChild c = .ok pts ∧
      dictGet "a" [("a", [((2 : ℚ), (2 : ℚ))])] = some pts :=
  later_duplicate_contour_name_wins contoursDupName [("a", [(2, 2)])] "a"
    (by simp +decide [parse_contours, parseContoursList, parseContourChild,
      scanContourChildren, parsePoints, parsePoint, keep_element_nodes,
      childrenOf, getAttribute, isElem, firstChildData, firstChild, nodeData,
      getElementsByTagName, elementsByTagList, elementsByTagIncl, dictInsert,
      Except.map, contoursDupName, contoursNode, contourNode, ptsNode, mkPt])
    (by decide)

/-- C8: a contour entry with zero matched point records still lands in the
returned `ContourSet` under its name, as an empty point sequence. -/
theorem empty_contour_still_inserted (node : XNode) (m : ContourSet)
    (c : XNode) (h : parse_contours node = .ok m)
    (hrec : pointRecords (keep_element_nodes (childrenOf c)) = [])
    (hlast : ((keep_element_nodes (childrenOf node)).filter
      (fun x => getAttribute "Hash:key" x ==
        getAttribute "Hash:key" c)).getLast? = some c) :
    dictGet (getAttribute "Hash:key" c) m = some ([] : Contour) := by
  unfold parse_contours at h
  have hm := parseContoursList_master _ _ _ h (getAttribute "Hash:key" c)
  rw [hlast] at hm
  obtain ⟨pts, hpc, hget⟩ := hm
  have hraw : rawPointsE (keep_element_nodes (childrenOf c)) = .ok [] := by
    rw [rawPointsE_eq, hrec]
    rfl
  rw [parseContourChild_eq, hraw] at hpc
  cases hsubs : subFactorsE (keep_element_nodes (childrenOf c)) with
  | error e => rw [hsubs] at hpc; simp at hpc
  | ok subs =>
    rw [hsubs] at hpc
    have hpts : Except.ok (([] : Contour).map
        (fun p => (p.1 / (subs.getLast?).getD 1,
          p.2 / (subs.getLast?).getD 1))) = Except.ok pts := hpc
    simp only [List.map_nil, Except.ok.injEq] at hpts
    rw [hget, ← hpts]

/-- Witness for C8: a zero-record contour named "hollow" appears in the
ContourSet as the empty sequence, next to a non-empty sibling. -/
theorem empty_contour_still_inserted_witness :
    dictGet (getAttribute "Hash:key" (contourNode "hollow" []))
        [("full", [((1 : ℚ), (2 : ℚ))]), ("hollow", [])] =
      some ([] : Contour) :=
  empty_contour_still_inserted contoursWithEmptyEntry
    [("full", [(1, 2)]), ("hollow", [])] (contourNode "hollow" [])
    (by simp +decide [parse_contours, parseContoursList, parseContourChild,
      scanContourChildren, parsePoints, parsePoint, keep_element_nodes,
      childrenOf, getAttribute, isElem, firstChildData, firstChild, nodeData,
      getElementsByTagName, elementsByTagList, elementsByTagIncl, dictInsert,
      Except.map, contoursWithEmptyEntry, contoursNode, contourNode, ptsNode,
      mkPt])
    rfl
    rfl

/-- C6: the resulting contour has exactly one point per point record, in
the document order of the records; the i-th final point is the i-th
record's parsed pair scaled by the (uniform) factor, so scaling never
reorders points. -/
theorem contour_point_order_preserved (child : XNode) (pts : Contour)
    (h : parseContourChild child = .ok pts) :
    ∃ s : ℚ,
      pts.length =
        (pointRecords (keep_element_nodes (childrenOf child))).length ∧
      ∀ (i : ℕ) (hi : i < pts.length)
        (hr : i < (pointRecords (keep_element_nodes (childrenOf child))).length),
        ∃ q : ℚ × ℚ,
          parsePoint ((pointRecords
            (keep_element_nodes (childrenOf child))).get ⟨i, hr⟩) = .ok q ∧
          pts.get ⟨i, hi⟩ = (q.1 / s, q.2 / s) := by
  rw [parseContourChild_eq] at h
  cases hraw : rawPointsE (keep_element_nodes (childrenOf child)) with
  | error e => rw [hraw] at h; simp at h
  | ok raw =>
    rw [hraw] at h
    cases hsubs : subFactorsE (keep_element_nodes (childrenOf child)) with
    | error e => rw [hsubs] at h; simp at h
    | ok subs =>
      rw [hsubs] at h
      have hpts : raw.map (fun p => (p.1 / (subs.getLast?).getD 1,
          p.2 / (subs.getLast?).getD 1)) = pts := by
        have h2 : Except.ok (raw.map (fun p => (p.1 / (subs.getLast?).getD 1,
            p.2 / (subs.getLast?).getD 1))) = Except.ok pts := h
        exact Except.ok.inj h2
      have hpp : parsePoints
          (pointRecords (keep_element_nodes (childrenOf child))) = .ok raw := by
        rw [← rawPointsE_eq]
        exact hraw
      obtain ⟨hlen, hidx⟩ := parsePoints_index _ _ hpp
      subst hpts
      refine ⟨(subs.getLast?).getD 1, ?_, ?_⟩
      · rw [List.length_map, hlen]
      · intro i hi hr
        have hiraw : i < raw.length := by
          rw [List.length_map] at hi
          exact hi
        obtain ⟨q, hq, hqeq⟩ := hidx i hiraw hr
        refine ⟨q, hq, ?_⟩
        have hget : (raw.map (fun p => (p.1 / (subs.getLast?).getD 1,
            p.2 / (subs.getLast?).getD 1))).get ⟨i, hi⟩ =
            (fun p => (p.1 / (subs.getLast?).getD 1,
              p.2 / (subs.getLast?).getD 1)) (raw.get ⟨i, hiraw⟩) := by
          simp [List.get_eq_getElem, List.getElem_map]
        rw [hget, hqeq]

/-- Witness for C6: a two-record contour keeps its two points in record
order. -/
theorem contour_point_order_preserved_witness :
    ∃ s : ℚ,
      ([((1 : ℚ), (2 : ℚ)), ((3 : ℚ), (4 : ℚ))] : Contour).length =
        (pointRecords (keep_element_nodes (childrenOf contourOrderEx))).length ∧
      ∀ (i : ℕ)
        (hi : i < ([((1 : ℚ), (2 : ℚ)), ((3 : ℚ), (4 : ℚ))] : Contour).length)
        (hr : i < (pointRecords
          (keep_element_nodes (childrenOf contourOrderEx))).length),
        ∃ q : ℚ × ℚ,
          parsePoint ((pointRecords
            (keep_element_nodes (childrenOf contourOrderEx))).get ⟨i, hr⟩) =
              .ok q ∧
          ([((1 : ℚ), (2 : ℚ)), ((3 : ℚ), (4 : ℚ))] : Contour).get ⟨i, hi⟩ =
            (q.1 / s, q.2 / s) :=
  contour_point_order_preserved contourOrderEx
    [((1 : ℚ), (2 : ℚ)), ((3 : ℚ), (4 : ℚ))]
    (by simp +decide [parseContourChild, scanContourChildren, parsePoints,
      parsePoint, keep_element_nodes, childrenOf, getAttribute, isElem,
      firstChildData, firstChild, nodeData, getElementsByTagName,
      elementsByTagList, elementsByTagIncl, Except.map, contourOrderEx,
      contourNode, ptsNode, mkPt])

/-- C10: with two or more `SubpixelResolution` children, the factor
actually applied to every point is the payload of the *last* such child in
document order. -/
theorem last_subpixel_resolution_wins (child : XNode) (pts : Contour)
    (h : parseContourChild child = .ok pts)
    (hdup : 2 ≤ (subChildrenOf (keep_element_nodes (childrenOf child))).length) :
    ∃ raw lastc d,
      rawPointsE (keep_element_nodes (childrenOf child)) = .ok raw ∧
      (subChildrenOf (keep_element_nodes (childrenOf child))).getLast? =
        some lastc ∧
      firstChildData lastc = some d ∧
      pts = raw.map (fun p => (p.1 / d, p.2 / d)) := by
  rw [parseContourChild_eq] at h
  cases hraw : rawPointsE (keep_element_nodes (childrenOf child)) with
  | error e => rw [hraw] at h; simp at h
  | ok raw =>
    rw [hraw] at h
    cases hsubs : subFactorsE (keep_element_nodes (childrenOf child)) with
    | error e => rw [hsubs] at h; simp at h
    | ok subs =>
      rw [hsubs] at h
      have hpts : raw.map (fun p => (p.1 / (subs.getLast?).getD 1,
          p.2 / (subs.getLast?).getD 1)) = pts := by
        have h2 : Except.ok (raw.map (fun p => (p.1 / (subs.getLast?).getD 1,
            p.2 / (subs.getLast?).getD 1))) = Except.ok pts := h
        exact Except.ok.inj h2
      have hrs : readSubs (subChildrenOf
          (keep_element_nodes (childrenOf child))) = .ok subs := by
        rw [← subFactorsE_eq]
        exact hsubs
      have hne : subChildrenOf (keep_element_nodes (childrenOf child)) ≠ [] := by
        intro hnil
        rw [hnil] at hdup
        simp at hdup
      obtain ⟨lastc, d, hcl, hdl, hfd⟩ := readSubs_getLast _ _ hrs hne
      refine ⟨raw, lastc, d, rfl, hcl, hfd, ?_⟩
      rw [← hpts]
      simp only [hdl, Option.getD_some]

/-- Witness for C10: SubpixelResolution 5 then 2 — the point (10,10) is
divided by 2, the last factor in document order. -/
theorem last_subpixel_resolution_wins_witness :
    ∃ raw lastc d,
      rawPointsE (keep_element_nodes (childrenOf contourTwoSubs)) = .ok raw ∧
      (subChildrenOf (keep_element_nodes (childrenOf contourTwoSubs))).getLast? =
        some lastc ∧
      firstChildData lastc = some d ∧
      ([((5 : ℚ), (5 : ℚ))] : Contour) =
        raw.map (fun p => (p.1 / d, p.2 / d)) :=
  last_subpixel_resolution_wins contourTwoSubs [((5 : ℚ), (5 : ℚ))]
    (by
      simp +decide [parseContourChild, scanContourChildren, parsePoints,
        parsePoint, keep_element_nodes, childrenOf, getAttribute, isElem,
        firstChildData, firstChild, nodeData, getElementsByTagName,
        elementsByTagList, elementsByTagIncl, Except.map, contourTwoSubs,
        contourNode, ptsNode, subNode, mkPt]
      norm_num)
    (by decide)

theorem imageContoursResults_mem (c3s : List XNode) (c3 : XNode)
    (hkey : getAttribute "Hash:key" c3 = "Contours") (cs : ContourSet)
    (hpc : parse_contours c3 = .ok cs) :
    ∀ L, imageContoursResults c3s = .ok L → c3 ∈ c3s → cs ∈ L := by
  induction c3s with
  | nil =>
    intro L hL hc3
    cases hc3
  | cons c3' rest ih =>
    intro L hL hc3
    rcases List.mem_cons.1 hc3 with rfl | hmem
    · have hkb : (getAttribute "Hash:key" c3 == "Contours") = true := by
        rw [hkey]
        rfl
      simp only [imageContoursResults, hkb, if_true] at hL
      rw [hpc] at hL
      cases hrest : imageContoursResults rest with
      | error e => rw [hrest] at hL; simp [Except.map] at hL
      | ok L' =>
        rw [hrest] at hL
        simp only [Except.map, Except.ok.injEq] at hL
        rw [← hL]
        exact List.mem_cons_self cs L'
    · cases hkb : getAttribute "Hash:key" c3' == "Contours" with
      | false =>
        simp only [imageContoursResults, hkb, Bool.false_eq_true, if_false] at hL
        exact ih L hL hmem
      | true =>
        simp only [imageContoursResults, hkb, if_true] at hL
        cases hpc' : parse_contours c3' with
        | error e => rw [hpc'] at hL; cases hL
        | ok cs' =>
          rw [hpc'] at hL
          cases hrest : imageContoursResults rest with
          | error e => rw [hrest] at hL; simp [Except.map] at hL
          | ok L' =>
            rw [hrest] at hL
            simp only [Except.map, Except.ok.injEq] at hL
            rw [← hL]
            exact List.mem_cons_of_mem cs' (ih L' hrest hmem)

/-- C9: a missing `Hash:key` attribute never skips a node and never raises:
the lookup yields `""`, so (a) such a contour entry is stored in the
`ContourSet` under the name `""`, and (b) such an image's non-empty
contours are stored in the catalog under the UID `""`. -/
theorem missing_hash_key_defaults_to_empty_string :
    (∀ c : XNode, hasAttribute "Hash:key" c = false →
      getAttribute "Hash:key" c = "") ∧
    (∀ (node : XNode) (m : ContourSet) (c : XNode),
      parse_contours node = .ok m →
      c ∈ keep_element_nodes (childrenOf node) →
      hasAttribute "Hash:key" c = false →
      (dictGet "" m).isSome = true) ∧
    (∀ (img : XNode) (cat cat' : ContourCatalog) (c3 : XNode) (cs : ContourSet),
      hasAttribute "Hash:key" img = false →
      processImageChild (getAttribute "Hash:key" img)
        (keep_element_nodes (childrenOf img)) cat = .ok cat' →
      c3 ∈ keep_element_nodes (childrenOf img) →
      getAttribute "Hash:key" c3 = "Contours" →
      parse_contours c3 = .ok cs → cs ≠ [] →
      (dictGet "" cat').isSome = true) := by
  have part1 : ∀ c : XNode, hasAttribute "Hash:key" c = false →
      getAttribute "Hash:key" c = "" := by
    intro c hc
    cases c with
    | text d => rfl
    | elem t a cs =>
      simp only [hasAttribute, List.any_eq_false] at hc
      simp only [getAttribute]
      have hfind : a.find? (fun p => p.1 == "Hash:key") = none := by
        rw [List.find?_eq_none]
        exact hc
      rw [hfind]
      rfl
  refine ⟨part1, ?_, ?_⟩
  · intro node m c h hc hattr
    unfold parse_contours at h
    have hm := parseContoursList_master _ _ _ h ""
    have hcf : c ∈ (keep_element_nodes (childrenOf node)).filter
        (fun x => getAttribute "Hash:key" x == "") :=
      List.mem_filter.2 ⟨hc, by rw [part1 c hattr]; rfl⟩
    have hne : ((keep_element_nodes (childrenOf node)).filter
        (fun x => getAttribute "Hash:key" x == "")) ≠ [] := by
      intro hnil
      rw [hnil] at hcf
      cases hcf
    cases hgl : ((keep_element_nodes (childrenOf node)).filter
        (fun x => getAttribute "Hash:key" x == "")).getLast? with
    | none => exact absurd (List.getLast?_eq_none_iff.1 hgl) hne
    | some c' =>
      rw [hgl] at hm
      obtain ⟨pts, _, hget⟩ := hm
      rw [hget]
      rfl
  · intro img cat cat' c3 cs hattr hpic hc3 hkey hpc hne
    obtain ⟨L, hL, hg⟩ := processImageChild_master _ _ _ _ hpic ""
    rw [part1 img hattr] at hg
    simp only [beq_self_eq_true, if_true] at hg
    have hmem := imageContoursResults_mem _ c3 hkey cs hpc L hL hc3
    rw [hg]
    refine lastNE_isSome_of_mem cs L _ hmem ?_
    cases cs with
    | nil => exact absurd rfl hne
    | cons a t => rfl

/-- Witness for C9: an attribute-less contour entry is filed under `""`,
and an attribute-less image's contours land in the catalog under `""`. -/
theorem missing_hash_key_defaults_to_empty_string_witness :
    getAttribute "Hash:key" contourNoKey = "" ∧
      (dictGet "" [("", [((1 : ℚ), (1 : ℚ))])]).isSome = true ∧
      (dictGet "" [("", [("a", [((1 : ℚ), (1 : ℚ))])])]).isSome = true := by
  refine ⟨missing_hash_key_defaults_to_empty_string.1 contourNoKey rfl,
    ?_, ?_⟩
  · exact missing_hash_key_defaults_to_empty_string.2.1 contoursNoKey
      [("", [(1, 1)])] contourNoKey
      (by simp +decide [parse_contours, parseContoursList, parseContourChild,
        scanContourChildren, parsePoints, parsePoint, keep_element_nodes,
        childrenOf, getAttribute, isElem, firstChildData, firstChild,
        nodeData, getElementsByTagName, elementsByTagList, elementsByTagIncl,
        dictInsert, Except.map, contoursNoKey, contoursNode, contourNoKey,
        ptsNode, mkPt])
      (by simp [keep_element_nodes, childrenOf, contoursNoKey, contoursNode,
        contourNoKey, isElem])
      rfl
  · exact missing_hash_key_defaults_to_empty_string.2.2 imgNoKey []
      [("", [("a", [(1, 1)])])]
      (contoursNode [contourNode "a" [ptsNode [(1, 1)]]])
      [("a", [(1, 1)])] rfl
      (by simp +decide [processImageChild, parse_contours, parseContoursList,
        parseContourChild, scanContourChildren, parsePoints, parsePoint,
        keep_element_nodes, childrenOf, getAttribute, isElem, firstChildData,
        firstChild, nodeData, getElementsByTagName, elementsByTagList,
        elementsByTagIncl, dictInsert, Except.map, imgNoKey, contoursNode,
        contourNode, ptsNode, mkPt])
      (by simp [keep_element_nodes, childrenOf, imgNoKey, contoursNode,
        contourNode, ptsNode, mkPt, isElem])
      rfl
      (by simp +decide [parse_contours, parseContoursList, parseContourChild,
        scanContourChildren, parsePoints, parsePoint, keep_element_nodes,
        childrenOf, getAttribute, isElem, firstChildData, firstChild,
        nodeData, getElementsByTagName, elementsByTagList, elementsByTagIncl,
        dictInsert, Except.map, contoursNode, contourNode, ptsNode, mkPt])
      (by simp)

end Cvi42
